import Mathlib

/-!
Verification of the frame-resource / fencing scheme and geometry builders of
the GraphicsDX12 demo apps (`TreeBillboardsApp.cpp`, `ShapesApp.cpp`).

The two apps share the same frame-resource ring code: a ring of
`gNumFrameResources = 3` frame resources, an `Update` that advances
`mCurrFrameResourceIndex`, waits on the fence when the newly selected frame
resource is still in flight on the GPU, and a `Draw` that bumps
`mCurrentFence`, stores it in the current frame resource and signals the
queue.  We model that machine with explicit state passing; the GPU's fence
progress is the `completedValue` field (`mFence->GetCompletedValue()`), and
the blocking wait is modelled by raising `completedValue` to the awaited
fence value, which is the state in which `WaitForSingleObject` returns.
-/

/-- `const int gNumFrameResources = 3;` (both apps, line 18/19). -/
def gNumFrameResources : ℕ := 3

/-- The state of the frame-resource ring shared by `TreeBillboardsApp` and
`ShapesApp`: the current index `mCurrFrameResourceIndex`, the `Fence` member
of each of the three `FrameResource`s, the app's running `mCurrentFence`
counter, and the fence value the GPU has completed
(`mFence->GetCompletedValue()`). -/
structure AppState where
  currFrameResourceIndex : ℕ
  frFence : Fin 3 → ℕ
  currentFence : ℕ
  completedValue : ℕ

/-- Initial state: `mCurrFrameResourceIndex = 0`, `mCurrentFence = 0`, every
`FrameResource::Fence` zero (never submitted), GPU completed value zero. -/
def initState : AppState :=
  { currFrameResourceIndex := 0, frFence := fun _ => 0,
    currentFence := 0, completedValue := 0 }

/-- The slot selected by `mFrameResources[mCurrFrameResourceIndex]`. -/
def selSlot (s : AppState) : Fin 3 :=
  ⟨s.currFrameResourceIndex % 3, Nat.mod_lt _ (by omega)⟩

/-- `mCurrFrameResourceIndex = (mCurrFrameResourceIndex + 1) % gNumFrameResources;`
followed by re-binding `mCurrFrameResource` (Update, first two statements of
the frame-resource block). -/
def updateSelect (s : AppState) : AppState :=
  { s with currFrameResourceIndex := (s.currFrameResourceIndex + 1) % gNumFrameResources }

/-- The guard of the wait:
`mCurrFrameResource->Fence != 0 && mFence->GetCompletedValue() < mCurrFrameResource->Fence`. -/
def waitGuard (s : AppState) : Bool :=
  s.frFence (selSlot s) ≠ 0 && s.completedValue < s.frFence (selSlot s)

/-- The `if` body: `SetEventOnCompletion` / `WaitForSingleObject` blocks until
the GPU fence reaches `mCurrFrameResource->Fence`; on return the completed
value is at least that fence value, modelled as raising it to the fence. -/
def updateWait (s : AppState) : AppState :=
  if waitGuard s then
    { s with completedValue := max s.completedValue (s.frFence (selSlot s)) }
  else s

/-- The frame-resource portion of `Update` (both apps): select the next frame
resource, then wait if it is still in flight. -/
def update (s : AppState) : AppState :=
  updateWait (updateSelect s)

/-- `Draw` (fence part, both apps):
`mCurrFrameResource->Fence = ++mCurrentFence;` then
`mCommandQueue->Signal(mFence.Get(), mCurrentFence);`. -/
def draw (s : AppState) : AppState :=
  let cf := s.currentFence + 1
  { s with currentFence := cf, frFence := Function.update s.frFence (selSlot s) cf }

/-- One frame of the app's run loop: `Update` then `Draw`. -/
def frameStep (s : AppState) : AppState :=
  draw (update s)

/-- Inductive invariant of the ring: every stored fence is at most
`mCurrentFence`, and nonzero stored fences are pairwise distinct. -/
def FenceInv (s : AppState) : Prop :=
  (∀ a : Fin 3, s.frFence a ≤ s.currentFence) ∧
  (∀ a b : Fin 3, a ≠ b → s.frFence a = 0 ∨ s.frFence b = 0 ∨ s.frFence a ≠ s.frFence b)

lemma updateWait_idx (s : AppState) :
    (updateWait s).currFrameResourceIndex = s.currFrameResourceIndex := by
  unfold updateWait; split <;> rfl

lemma updateWait_frFence (s : AppState) : (updateWait s).frFence = s.frFence := by
  unfold updateWait; split <;> rfl

lemma update_idx (s : AppState) :
    (update s).currFrameResourceIndex = (s.currFrameResourceIndex + 1) % 3 := by
  unfold update updateSelect gNumFrameResources
  rw [updateWait_idx]

lemma update_frFence (s : AppState) : (update s).frFence = s.frFence := by
  unfold update updateSelect
  rw [updateWait_frFence]

lemma update_currentFence (s : AppState) :
    (update s).currentFence = s.currentFence := by
  unfold update updateWait updateSelect; split <;> rfl

/-- **C1.** In `Update`, the CPU blocks on the fence event iff the newly
selected frame resource's `Fence` is nonzero and `GetCompletedValue()` is
below it; and past the wait, that frame resource has either never been
submitted (`Fence == 0`) or its submitted work has completed
(`GetCompletedValue() >= Fence`). -/
theorem update_blocks_iff_and_safe (s : AppState) :
    (waitGuard (updateSelect s) = true ↔
      (updateSelect s).frFence (selSlot (updateSelect s)) ≠ 0 ∧
      (updateSelect s).completedValue < (updateSelect s).frFence (selSlot (updateSelect s))) ∧
    ((update s).frFence (selSlot (update s)) = 0 ∨
      (update s).frFence (selSlot (update s)) ≤ (update s).completedValue) := by
  constructor
  · simp [waitGuard]
  · unfold update
    have hsel : selSlot (updateWait (updateSelect s)) = selSlot (updateSelect s) := by
      apply Fin.ext
      show (updateWait (updateSelect s)).currFrameResourceIndex % 3 =
        (updateSelect s).currFrameResourceIndex % 3
      rw [updateWait_idx]
    rw [hsel, updateWait_frFence]
    set s1 := updateSelect s with hs1
    unfold updateWait
    by_cases h : waitGuard s1 = true
    · rw [if_pos h]
      right
      exact le_max_right _ _
    · have h2 : ¬(s1.frFence (selSlot s1) ≠ 0 ∧
          s1.completedValue < s1.frFence (selSlot s1)) := by
        simpa [waitGuard] using h
      rw [if_neg h]
      by_cases hz : s1.frFence (selSlot s1) = 0
      · exact Or.inl hz
      · right
        have := mt (fun hlt => And.intro hz hlt) h2
        omega

/-- **C2.** Each `Update` advances `mCurrFrameResourceIndex` by one modulo
`gNumFrameResources = 3`; the index is below 3 after every `Update`; and
from any in-range index, three `Update`s return to the same frame resource
(strict round-robin). -/
theorem update_ring_round_robin (s : AppState) :
    (update s).currFrameResourceIndex = (s.currFrameResourceIndex + 1) % 3 ∧
    (update s).currFrameResourceIndex < 3 ∧
    (s.currFrameResourceIndex < 3 →
      (update (update (update s))).currFrameResourceIndex = s.currFrameResourceIndex) := by
  refine ⟨update_idx s, ?_, ?_⟩
  · rw [update_idx]; omega
  · intro h
    rw [update_idx, update_idx, update_idx]
    omega

/-- Witness for C2 at the initial state. -/
theorem update_ring_round_robin_witness :
    initState.currFrameResourceIndex < 3 ∧
    (update (update (update initState))).currFrameResourceIndex =
      initState.currFrameResourceIndex :=
  ⟨by decide, (update_ring_round_robin initState).2.2 (by decide)⟩

lemma draw_frFence_apply (s : AppState) (a : Fin 3) :
    (draw s).frFence a =
      if a = selSlot s then s.currentFence + 1 else s.frFence a := by
  unfold draw
  simp [Function.update_apply]

lemma fenceInv_frameStep (s : AppState) (h : FenceInv s) : FenceInv (frameStep s) := by
  unfold frameStep
  have hf : (update s).frFence = s.frFence := update_frFence s
  have hc : (update s).currentFence = s.currentFence := update_currentFence s
  obtain ⟨h1, h2⟩ := h
  constructor
  · intro a
    rw [draw_frFence_apply]
    have : (draw (update s)).currentFence = (update s).currentFence + 1 := rfl
    rw [this, hc]
    by_cases ha : a = selSlot (update s)
    · rw [if_pos ha]
    · rw [if_neg ha, hf]
      exact Nat.le_succ_of_le (h1 a)
  · intro a b hab
    rw [draw_frFence_apply, draw_frFence_apply]
    by_cases ha : a = selSlot (update s)
    · rw [if_pos ha, if_neg (by rw [← ha]; exact fun hb => hab (hb.symm ▸ rfl))]
      rw [hf]
      have := h1 b
      right; right
      rw [hc]
      omega
    · rw [if_neg ha]
      by_cases hb : b = selSlot (update s)
      · rw [if_pos hb, hf]
        have := h1 a
        right; right
        rw [hc]
        omega
      · rw [if_neg hb, hf]
        exact h2 a b hab

/-- **C5.** Each `Draw` increments `mCurrentFence` by exactly one and stores
the new value in the current frame resource's `Fence`; along the app's run
loop the fence counter after `n` frames is exactly `n` (so assigned fence
values are strictly increasing), and the three frame resources' `Fence`
fields are always pairwise distinct or zero. -/
theorem draw_fence_assignment (s : AppState) (n : ℕ) :
    ((draw s).currentFence = s.currentFence + 1 ∧
      (draw s).frFence (selSlot s) = s.currentFence + 1) ∧
    (frameStep^[n] initState).currentFence = n ∧
    FenceInv (frameStep^[n] initState) := by
  refine ⟨⟨rfl, ?_⟩, ?_, ?_⟩
  · rw [draw_frFence_apply, if_pos rfl]
  · induction n with
    | zero => rfl
    | succ k ih =>
      rw [Function.iterate_succ_apply']
      show (draw (update (frameStep^[k] initState))).currentFence = k + 1
      have : (draw (update (frameStep^[k] initState))).currentFence =
          (update (frameStep^[k] initState)).currentFence + 1 := rfl
      rw [this, update_currentFence, ih]
  · induction n with
    | zero =>
      refine ⟨fun a => Nat.le_refl 0, fun a b _ => Or.inl rfl⟩
    | succ k ih =>
      rw [Function.iterate_succ_apply']
      exact fenceInv_frameStep _ ih


/-!
## UpdateWaves: disturb scheduling and random ranges (TreeBillboardsApp)

`UpdateWaves` keeps a static `t_base` and, whenever
`mTimer.TotalTime() - t_base >= 0.25f`, advances `t_base` by `0.25f` and
issues one `Waves::Disturb(i, j, r)` with
`i = MathHelper::Rand(4, RowCount() - 5)`,
`j = MathHelper::Rand(4, ColumnCount() - 5)`,
`r = MathHelper::RandF(0.2f, 0.5f)`.
Floats are modelled as rationals (`0.25`, `0.2`, `0.5` are exact binary
floats and the arithmetic stays exact); rational literals are written with
`mkRat` so the model evaluates in the kernel.
-/

/-- Modelled from the spec: `MathHelper::Rand(a, b)` (MathHelper.h is not
under src/) draws a random integer in `[a, b]`, as `a + rand() % ((b-a)+1)`;
`r` is the nonnegative value returned by `rand()`. -/
def mathHelperRand (r : ℕ) (a b : ℤ) : ℤ :=
  a + (r : ℤ) % (b - a + 1)

/-- Modelled from the spec: `MathHelper::RandF(a, b)` (MathHelper.h is not
under src/) draws a random float in `[a, b]`, as `a + u * (b - a)` where
`u = rand() / RAND_MAX` lies in `[0, 1]`. -/
def mathHelperRandF (u a b : ℚ) : ℚ :=
  a + u * (b - a)

/-- The `t_base` gate of `UpdateWaves`: disturb exactly when
`TotalTime() - t_base >= 0.25`, in which case `t_base += 0.25`. -/
def wavesDisturbGate (tBase total : ℚ) : Bool × ℚ :=
  if total - tBase ≥ mkRat 1 4 then (true, tBase + mkRat 1 4) else (false, tBase)

/-- Folding the gate over the sequence of `TotalTime()` samples seen by
successive `UpdateWaves` calls; returns the number of `Disturb` calls issued
and the final `t_base`. -/
def runDisturbGate : ℚ → List ℚ → ℕ × ℚ
  | tBase, [] => (0, tBase)
  | tBase, t :: ts =>
      let g := wavesDisturbGate tBase t
      let rest := runDisturbGate g.2 ts
      ((if g.1 then 1 else 0) + rest.1, rest.2)

lemma mkRat_quarter : (mkRat 1 4 : ℚ) = 1/4 := by
  rw [Rat.mkRat_eq_div]
  norm_num

lemma wavesDisturbGate_fire {tb t : ℚ} (h : t - tb ≥ mkRat 1 4) :
    wavesDisturbGate tb t = (true, tb + mkRat 1 4) := by
  unfold wavesDisturbGate
  rw [if_pos h]

lemma wavesDisturbGate_skip {tb t : ℚ} (h : ¬ t - tb ≥ mkRat 1 4) :
    wavesDisturbGate tb t = (false, tb) := by
  unfold wavesDisturbGate
  rw [if_neg h]

lemma runDisturbGate_snd (ts : List ℚ) :
    ∀ tb : ℚ, (runDisturbGate tb ts).2 = tb + (1/4) * ((runDisturbGate tb ts).1 : ℚ) := by
  induction ts with
  | nil => intro tb; simp [runDisturbGate]
  | cons t ts ih =>
    intro tb
    by_cases h : t - tb ≥ mkRat 1 4
    · simp only [runDisturbGate, wavesDisturbGate_fire h, if_true]
      rw [ih (tb + mkRat 1 4), mkRat_quarter]
      push_cast
      ring
    · simp only [runDisturbGate, wavesDisturbGate_skip h, if_false, Bool.false_eq_true]
      rw [ih tb, Nat.zero_add]

lemma runDisturbGate_le (T : ℚ) (ts : List ℚ) :
    ∀ tb : ℚ, (∀ t ∈ ts, t ≤ T) → (runDisturbGate tb ts).2 ≤ max tb T := by
  induction ts with
  | nil => intro tb _; simp [runDisturbGate]
  | cons t ts ih =>
    intro tb h
    have ht : t ≤ T := h t (List.mem_cons_self t ts)
    have hts : ∀ x ∈ ts, x ≤ T := fun x hx => h x (List.mem_cons_of_mem t hx)
    by_cases hg : t - tb ≥ mkRat 1 4
    · simp only [runDisturbGate, wavesDisturbGate_fire hg]
      have h1 : tb + mkRat 1 4 ≤ T := by
        rw [mkRat_quarter]
        rw [mkRat_quarter] at hg
        linarith
      calc (runDisturbGate (tb + mkRat 1 4) ts).2 ≤ max (tb + mkRat 1 4) T := ih _ hts
        _ ≤ max tb T := by
            rw [max_eq_right h1]
            exact le_max_right _ _
    · simp only [runDisturbGate, wavesDisturbGate_skip hg]
      exact ih tb hts

/-- **C4.** `UpdateWaves` issues at most one `Disturb` per 0.25 s of total
time: starting from `t_base = 0`, the final `t_base` equals `0.25` times the
number of `Disturb` calls issued and never exceeds the largest `TotalTime()`
sample (so `0.25 * count ≤ max 0 T`); each `Disturb` targets a row index in
`[4, RowCount()-5]` and a column index in `[4, ColumnCount()-5]`, which are
valid interior grid indices whenever `RowCount(), ColumnCount() ≥ 9`; and the
magnitude lies in `[0.2, 0.5]`. -/
theorem updateWaves_disturb_schedule_and_range
    (ts : List ℚ) (T : ℚ) (hT : ∀ t ∈ ts, t ≤ T)
    (r1 r2 : ℕ) (u : ℚ) (rows cols : ℤ)
    (hrows : 9 ≤ rows) (hcols : 9 ≤ cols) (hu0 : 0 ≤ u) (hu1 : u ≤ 1) :
    ((runDisturbGate 0 ts).2 = (1/4) * ((runDisturbGate 0 ts).1 : ℚ) ∧
      ((runDisturbGate 0 ts).1 : ℚ) * (1/4) ≤ max 0 T) ∧
    (4 ≤ mathHelperRand r1 4 (rows - 5) ∧ mathHelperRand r1 4 (rows - 5) ≤ rows - 5 ∧
      0 < mathHelperRand r1 4 (rows - 5) ∧ mathHelperRand r1 4 (rows - 5) < rows - 1) ∧
    (4 ≤ mathHelperRand r2 4 (cols - 5) ∧ mathHelperRand r2 4 (cols - 5) ≤ cols - 5 ∧
      0 < mathHelperRand r2 4 (cols - 5) ∧ mathHelperRand r2 4 (cols - 5) < cols - 1) ∧
    (mkRat 1 5 ≤ mathHelperRandF u (mkRat 1 5) (mkRat 1 2) ∧
      mathHelperRandF u (mkRat 1 5) (mkRat 1 2) ≤ mkRat 1 2) := by
  have hrand : ∀ (r : ℕ) (m : ℤ), 9 ≤ m →
      4 ≤ mathHelperRand r 4 (m - 5) ∧ mathHelperRand r 4 (m - 5) ≤ m - 5 ∧
      0 < mathHelperRand r 4 (m - 5) ∧ mathHelperRand r 4 (m - 5) < m - 1 := by
    intro r m hm
    unfold mathHelperRand
    have hpos : (0 : ℤ) < m - 5 - 4 + 1 := by omega
    have h0 : 0 ≤ (r : ℤ) % (m - 5 - 4 + 1) := Int.emod_nonneg _ (by omega)
    have h1 : (r : ℤ) % (m - 5 - 4 + 1) < m - 5 - 4 + 1 := Int.emod_lt_of_pos _ hpos
    omega
  have h15 : (mkRat 1 5 : ℚ) = 1/5 := by rw [Rat.mkRat_eq_div]; norm_num
  have h12 : (mkRat 1 2 : ℚ) = 1/2 := by rw [Rat.mkRat_eq_div]; norm_num
  refine ⟨⟨?_, ?_⟩, hrand r1 rows hrows, hrand r2 cols hcols, ?_, ?_⟩
  · have h := runDisturbGate_snd ts 0
    linarith
  · have h1 := runDisturbGate_le T ts 0 hT
    have h2 := runDisturbGate_snd ts 0
    rw [h2] at h1
    linarith
  · unfold mathHelperRandF
    rw [h15, h12]
    nlinarith
  · unfold mathHelperRandF
    rw [h15, h12]
    nlinarith

/-- Witness for C4 with two quarter-second-spaced samples, a 9×9 grid and a
midpoint random draw. -/
theorem updateWaves_disturb_schedule_and_range_witness :
    (∀ t ∈ ([0, mkRat 1 4] : List ℚ), t ≤ (mkRat 1 4 : ℚ)) ∧ (9 ≤ (9 : ℤ)) ∧
      (0 ≤ (mkRat 1 2 : ℚ)) ∧ ((mkRat 1 2 : ℚ) ≤ 1) ∧
    (((runDisturbGate 0 ([0, mkRat 1 4] : List ℚ)).2 =
        (1/4) * ((runDisturbGate 0 ([0, mkRat 1 4] : List ℚ)).1 : ℚ) ∧
      ((runDisturbGate 0 ([0, mkRat 1 4] : List ℚ)).1 : ℚ) * (1/4) ≤
        max 0 (mkRat 1 4 : ℚ)) ∧
    (4 ≤ mathHelperRand 7 4 ((9 : ℤ) - 5) ∧ mathHelperRand 7 4 ((9 : ℤ) - 5) ≤ 9 - 5 ∧
      0 < mathHelperRand 7 4 ((9 : ℤ) - 5) ∧ mathHelperRand 7 4 ((9 : ℤ) - 5) < 9 - 1) ∧
    (4 ≤ mathHelperRand 2 4 ((9 : ℤ) - 5) ∧ mathHelperRand 2 4 ((9 : ℤ) - 5) ≤ 9 - 5 ∧
      0 < mathHelperRand 2 4 ((9 : ℤ) - 5) ∧ mathHelperRand 2 4 ((9 : ℤ) - 5) < 9 - 1) ∧
    (mkRat 1 5 ≤ mathHelperRandF (mkRat 1 2) (mkRat 1 5) (mkRat 1 2) ∧
      mathHelperRandF (mkRat 1 2) (mkRat 1 5) (mkRat 1 2) ≤ mkRat 1 2)) :=
  ⟨by decide, by decide, by decide, by decide,
    updateWaves_disturb_schedule_and_range [0, mkRat 1 4] (mkRat 1 4) (by decide)
      7 2 (mkRat 1 2) 9 9 (by decide) (by decide) (by decide) (by decide)⟩

/-!
## UpdateWaves: dynamic vertex buffer contents (TreeBillboardsApp)

The copy loop of `UpdateWaves` writes, for `i` in `[0, VertexCount())`,
`v.Pos = mWaves->Position(i)`, `v.Normal = mWaves->Normal(i)`,
`v.TexC.x = 0.5f + v.Pos.x / mWaves->Width()`,
`v.TexC.y = 0.5f - v.Pos.z / mWaves->Depth()`, `currWavesVB->CopyData(i, v)`,
and finally points `mWavesRitem->Geo->VertexBufferGPU` at the current frame
resource's buffer.  The `Waves` accessors (class not under src/) enter as
parameters.
-/

/-- `XMFLOAT3`, components as rationals. -/
structure Vec3 where
  x : ℚ
  y : ℚ
  z : ℚ
deriving DecidableEq

/-- `XMFLOAT2`, components as rationals. -/
structure Vec2 where
  x : ℚ
  y : ℚ
deriving DecidableEq

/-- The app's `Vertex` struct: `Pos`, `Normal`, `TexC`. -/
structure Vertex where
  pos : Vec3
  normal : Vec3
  texC : Vec2
deriving DecidableEq

/-- Value-initialized `Vertex` (all components zero), as produced by
`std::vector<Vertex> vertices(n)`. -/
def defaultVertex : Vertex :=
  { pos := ⟨0, 0, 0⟩, normal := ⟨0, 0, 0⟩, texC := ⟨0, 0⟩ }

/-- The waves vertex buffer written by the copy loop of `UpdateWaves`. -/
def updateWavesVB (count : ℕ) (position normal : ℕ → Vec3)
    (width depth : ℚ) : List Vertex :=
  (List.range count).map fun i =>
    { pos := position i, normal := normal i,
      texC := { x := mkRat 1 2 + (position i).x / width,
                y := mkRat 1 2 - (position i).z / depth } }

/-- The slice of app state touched by the last line of `UpdateWaves`. -/
structure WavesFrameState where
  currFrameIdx : Fin 3
  wavesRitemVB : Option (Fin 3)
deriving DecidableEq

/-- `mWavesRitem->Geo->VertexBufferGPU = currWavesVB->Resource();`: the waves
render item's vertex buffer becomes the current frame resource's buffer. -/
def updateWavesRitemVB (s : WavesFrameState) : WavesFrameState :=
  { s with wavesRitemVB := some s.currFrameIdx }

lemma updateWavesVB_length (count : ℕ) (position normal : ℕ → Vec3)
    (width depth : ℚ) :
    (updateWavesVB count position normal width depth).length = count := by
  simp [updateWavesVB]

/-- **C3.** On every `Update`, `UpdateWaves` fills all `VertexCount()` slots
of the current frame's dynamic waves vertex buffer: slot `i` receives
`Position(i)` and `Normal(i)`, with `TexC.x = 0.5 + Pos.x / Width()` and
`TexC.y = 0.5 - Pos.z / Depth()`; positions with `x ∈ [-Width/2, Width/2]`
map to `TexC.x ∈ [0, 1]`; and the waves render item's vertex buffer is then
pointed at the current frame resource's buffer. -/
theorem updateWaves_buffer_contents (count : ℕ) (position normal : ℕ → Vec3)
    (width depth : ℚ) (i : ℕ) (hi : i < count) (hw : 0 < width) :
    (updateWavesVB count position normal width depth).length = count ∧
    (updateWavesVB count position normal width depth).getD i defaultVertex =
      { pos := position i, normal := normal i,
        texC := { x := mkRat 1 2 + (position i).x / width,
                  y := mkRat 1 2 - (position i).z / depth } } ∧
    (-(width / 2) ≤ (position i).x → (position i).x ≤ width / 2 →
      0 ≤ ((updateWavesVB count position normal width depth).getD i defaultVertex).texC.x ∧
      ((updateWavesVB count position normal width depth).getD i defaultVertex).texC.x ≤ 1) ∧
    (∀ s : WavesFrameState, (updateWavesRitemVB s).wavesRitemVB = some s.currFrameIdx) := by
  have hget : (updateWavesVB count position normal width depth).getD i defaultVertex =
      { pos := position i, normal := normal i,
        texC := { x := mkRat 1 2 + (position i).x / width,
                  y := mkRat 1 2 - (position i).z / depth } } := by
    unfold updateWavesVB
    rw [List.getD_eq_getElem?_getD, List.getElem?_map, List.getElem?_range hi]
    rfl
  refine ⟨updateWavesVB_length _ _ _ _ _, hget, ?_, fun s => rfl⟩
  intro hlo hhi
  rw [hget]
  have h12 : (mkRat 1 2 : ℚ) = 1/2 := by rw [Rat.mkRat_eq_div]; norm_num
  have h1 : (position i).x / width ≤ 1/2 := by
    rw [div_le_iff₀ hw]
    linarith
  have h2 : -(1/2) ≤ (position i).x / width := by
    rw [le_div_iff₀ hw]
    linarith
  constructor
  · show 0 ≤ mkRat 1 2 + (position i).x / width
    rw [h12]
    linarith
  · show mkRat 1 2 + (position i).x / width ≤ 1
    rw [h12]
    linarith

/-- Witness for C3: a one-vertex wave grid with the vertex at the left edge
of a width-2 surface. -/
theorem updateWaves_buffer_contents_witness :
    ((0 : ℕ) < 1 ∧ (0 : ℚ) < 2) ∧
    ((updateWavesVB 1 (fun _ => ⟨-1, 0, 0⟩) (fun _ => ⟨0, 1, 0⟩) 2 2).length = 1 ∧
    (updateWavesVB 1 (fun _ => ⟨-1, 0, 0⟩) (fun _ => ⟨0, 1, 0⟩) 2 2).getD 0 defaultVertex =
      { pos := (fun _ : ℕ => (⟨-1, 0, 0⟩ : Vec3)) 0,
        normal := (fun _ : ℕ => (⟨0, 1, 0⟩ : Vec3)) 0,
        texC := { x := mkRat 1 2 + ((fun _ : ℕ => (⟨-1, 0, 0⟩ : Vec3)) 0).x / 2,
                  y := mkRat 1 2 - ((fun _ : ℕ => (⟨-1, 0, 0⟩ : Vec3)) 0).z / 2 } } ∧
    (-(2 / 2 : ℚ) ≤ ((fun _ : ℕ => (⟨-1, 0, 0⟩ : Vec3)) 0).x →
      ((fun _ : ℕ => (⟨-1, 0, 0⟩ : Vec3)) 0).x ≤ (2 : ℚ) / 2 →
      0 ≤ ((updateWavesVB 1 (fun _ => ⟨-1, 0, 0⟩) (fun _ => ⟨0, 1, 0⟩) 2 2).getD 0
            defaultVertex).texC.x ∧
      ((updateWavesVB 1 (fun _ => ⟨-1, 0, 0⟩) (fun _ => ⟨0, 1, 0⟩) 2 2).getD 0
          defaultVertex).texC.x ≤ 1) ∧
    (∀ s : WavesFrameState, (updateWavesRitemVB s).wavesRitemVB = some s.currFrameIdx)) :=
  ⟨⟨by decide, by decide⟩,
    updateWaves_buffer_contents 1 (fun _ => ⟨-1, 0, 0⟩) (fun _ => ⟨0, 1, 0⟩) 2 2 0
      (by decide) (by decide)⟩

/-!
## BuildWavesGeometry: the water index buffer (TreeBillboardsApp)

`BuildWavesGeometry` allocates `3 * mWaves->TriangleCount()` 16-bit indices
and fills them quad by quad: for each `i < m-1`, `j < n-1` (with
`m = RowCount()`, `n = ColumnCount()`) it writes the six indices of the two
triangles of quad `(i, j)` at positions `k, …, k+5`, advancing `k` by 6.
`Waves.h` is not under src/, so the counting accessors are modelled.
-/

/-- Modelled from the spec: `Waves::VertexCount()` (Waves.h not under src/),
the number of grid vertices of an `m × n` wave grid: `m * n`. -/
def wavesVertexCount (m n : ℕ) : ℕ := m * n

/-- Modelled from the spec: `Waves::TriangleCount()` (Waves.h not under
src/), two triangles per quad of the `(m-1) × (n-1)` quad grid. -/
def wavesTriangleCount (m n : ℕ) : ℕ := 2 * ((m - 1) * (n - 1))

/-- The six indices the loop body writes for quad `(i, j)`:
`indices[k..k+2] = (i*n+j, i*n+j+1, (i+1)*n+j)` and
`indices[k+3..k+5] = ((i+1)*n+j, i*n+j+1, (i+1)*n+j+1)`. -/
def quadIndices (n i j : ℕ) : List ℕ :=
  [i*n + j, i*n + j + 1, (i+1)*n + j,
   (i+1)*n + j, i*n + j + 1, (i+1)*n + j + 1]

/-- The nested index-buffer fill loop of `BuildWavesGeometry`. -/
def buildWavesIndices (m n : ℕ) : List ℕ :=
  (List.range (m - 1)).flatMap fun i =>
    (List.range (n - 1)).flatMap fun j => quadIndices n i j

lemma length_flatMap_const (f : ℕ → List ℕ) (c : ℕ)
    (hf : ∀ x, (f x).length = c) :
    ∀ (k s : ℕ), ((List.range' s k).flatMap f).length = k * c := by
  intro k
  induction k with
  | zero => intro s; simp
  | succ k ih =>
    intro s
    rw [List.range'_succ, List.flatMap_cons, List.length_append, hf, ih (s + 1)]
    ring

lemma flatMap_const_length_drop (f : ℕ → List ℕ) (c : ℕ)
    (hf : ∀ x, (f x).length = c) :
    ∀ (i k s : ℕ), i ≤ k →
      ((List.range' s k).flatMap f).drop (c * i) =
        (List.range' (s + i) (k - i)).flatMap f := by
  intro i
  induction i with
  | zero => intro k s _; simp
  | succ i ih =>
    intro k s hik
    obtain ⟨k', rfl⟩ : ∃ k', k = k' + 1 := ⟨k - 1, by omega⟩
    rw [List.range'_succ, List.flatMap_cons]
    have hdrop : c * (i + 1) = c + c * i := by ring
    rw [hdrop, ← List.drop_drop]
    have h1 : List.drop c (f s ++ (List.range' (s + 1) k').flatMap f) =
        (List.range' (s + 1) k').flatMap f := by
      rw [← hf s]
      exact List.drop_left _ _
    rw [h1, ih k' (s + 1) (by omega),
      show s + 1 + i = s + (i + 1) from by omega,
      show k' - i = k' + 1 - (i + 1) from by omega]

lemma quadIndices_length (n i j : ℕ) : (quadIndices n i j).length = 6 := rfl

lemma buildWavesIndices_length (m n : ℕ) :
    (buildWavesIndices m n).length = 3 * wavesTriangleCount m n := by
  unfold buildWavesIndices wavesTriangleCount
  rw [List.range_eq_range']
  rw [length_flatMap_const _ (6 * (n - 1))
    (fun i => by
      rw [List.range_eq_range']
      rw [length_flatMap_const _ 6 (quadIndices_length n i) (n - 1) 0]
      ring)]
  ring

lemma buildWavesIndices_quad (m n i j : ℕ) (hi : i < m - 1) (hj : j < n - 1) :
    ((buildWavesIndices m n).drop (6 * ((n - 1) * i + j))).take 6 =
      quadIndices n i j := by
  unfold buildWavesIndices
  rw [List.range_eq_range']
  have hrow : ∀ x, (((List.range (n - 1)).flatMap fun j => quadIndices n x j).length)
      = 6 * (n - 1) := by
    intro x
    rw [List.range_eq_range']
    have := length_flatMap_const (fun j => quadIndices n x j) 6
      (quadIndices_length n x) (n - 1) 0
    rw [this]
    ring
  have hsplit : 6 * ((n - 1) * i + j) = (6 * (n - 1)) * i + 6 * j := by ring
  rw [hsplit, ← List.drop_drop]
  rw [flatMap_const_length_drop _ (6 * (n - 1)) hrow i (m - 1) 0 (by omega)]
  have hm : m - 1 - i = (m - 1 - i - 1) + 1 := by omega
  rw [hm, List.range'_succ, List.flatMap_cons, Nat.zero_add]
  rw [List.drop_append_of_le_length (by rw [hrow]; omega)]
  rw [List.range_eq_range']
  rw [flatMap_const_length_drop (fun j => quadIndices n i j) 6
    (quadIndices_length n i) j (n - 1) 0 (by omega)]
  have hn : n - 1 - j = (n - 1 - j - 1) + 1 := by omega
  rw [hn, List.range'_succ, List.flatMap_cons, Nat.zero_add]
  rw [List.append_assoc]
  rw [show (6 : ℕ) = (quadIndices n i j).length from rfl, List.take_left]

lemma buildWavesIndices_lt (m n : ℕ) :
    ∀ x ∈ buildWavesIndices m n, x < wavesVertexCount m n := by
  intro x hx
  unfold buildWavesIndices at hx
  rw [List.mem_flatMap] at hx
  obtain ⟨i, hi, hx⟩ := hx
  rw [List.mem_flatMap] at hx
  obtain ⟨j, hj, hx⟩ := hx
  rw [List.mem_range] at hi hj
  unfold wavesVertexCount
  have h1 : i * n ≤ (i + 1) * n := Nat.mul_le_mul_right n (by omega)
  have h2 : (i + 1) * n ≤ (m - 1) * n := Nat.mul_le_mul_right n (by omega)
  have h3 : (m - 1) * n + n = m * n := by
    have hm : 1 ≤ m := by omega
    calc (m - 1) * n + n = ((m - 1) + 1) * n := by ring
      _ = m * n := by rw [Nat.sub_add_cancel hm]
  have hn2 : 2 ≤ n := by omega
  unfold quadIndices at hx
  simp only [List.mem_cons, List.not_mem_nil, or_false] at hx
  rcases hx with rfl | rfl | rfl | rfl | rfl | rfl <;> omega

/-- **C6.** `BuildWavesGeometry` produces exactly `3 * TriangleCount()`
indices; for every quad `(i, j)` the six indices starting at position
`6*((n-1)*i + j)` are `(i*n+j, i*n+j+1, (i+1)*n+j)` and
`((i+1)*n+j, i*n+j+1, (i+1)*n+j+1)`; every emitted index is below
`RowCount()*ColumnCount()`; and under the asserted precondition
`VertexCount() < 0xffff` every index survives the `uint16` store
unchanged. -/
theorem buildWavesGeometry_index_buffer (m n i j : ℕ)
    (hi : i < m - 1) (hj : j < n - 1) (hv : wavesVertexCount m n < 0xffff) :
    (buildWavesIndices m n).length = 3 * wavesTriangleCount m n ∧
    ((buildWavesIndices m n).drop (6 * ((n - 1) * i + j))).take 6 =
      quadIndices n i j ∧
    (∀ x ∈ buildWavesIndices m n, x < wavesVertexCount m n) ∧
    (∀ x ∈ buildWavesIndices m n, x % 65536 = x) := by
  refine ⟨buildWavesIndices_length m n, buildWavesIndices_quad m n i j hi hj,
    buildWavesIndices_lt m n, ?_⟩
  intro x hx
  have h1 := buildWavesIndices_lt m n x hx
  exact Nat.mod_eq_of_lt (by omega)

/-- Witness for C6 on a 3×3 wave grid, first quad. -/
theorem buildWavesGeometry_index_buffer_witness :
    ((0 : ℕ) < 3 - 1 ∧ wavesVertexCount 3 3 < 0xffff) ∧
    ((buildWavesIndices 3 3).length = 3 * wavesTriangleCount 3 3 ∧
    ((buildWavesIndices 3 3).drop (6 * ((3 - 1) * 0 + 0))).take 6 =
      quadIndices 3 0 0 ∧
    (∀ x ∈ buildWavesIndices 3 3, x < wavesVertexCount 3 3) ∧
    (∀ x ∈ buildWavesIndices 3 3, x % 65536 = x)) :=
  ⟨⟨by decide, by decide⟩,
    buildWavesGeometry_index_buffer 3 3 0 0 (by decide) (by decide) (by decide)⟩

/-!
## BuildLandGeometry / GetHillsHeight / GetHillsNormal (TreeBillboardsApp)

`BuildLandGeometry` maps `GeometryGenerator::CreateGrid(1600, 1600, 50, 50)`
vertices through `GetHillsHeight` / `GetHillsNormal`, keeping the planar
position and the grid's texture coordinate.  The grid itself (generator not
under src/) enters as a parameter, as do the C library functions `cosf`,
`sinf` and the square root used by `XMVector3Normalize`, so the model stays
executable over ℚ.
-/

/-- The fields of a `GeometryGenerator::MeshData` vertex that
`BuildLandGeometry` reads. -/
structure GridVertex where
  pos : Vec3
  texC : Vec2
deriving DecidableEq

/-- `GetHillsHeight(x, z) = (40 * (cosf(x / 1600 * 7) + cosf(z / 1600 * 7))) - 70`,
with `cosf` as the parameter `c`. -/
def getHillsHeight (c : ℚ → ℚ) (x z : ℚ) : ℚ :=
  (40 * (c (x / 1600 * 7) + c (z / 1600 * 7))) - 70

/-- `x*x + y*y + z*z`, the dot product `XMVector3Normalize` divides by the
square root of. -/
def dot3 (v : Vec3) : ℚ := v.x * v.x + v.y * v.y + v.z * v.z

/-- `XMVector3Normalize`: divide by the vector length, the square root
(parameter `sq`) of the self dot product. -/
def normalize3 (sq : ℚ → ℚ) (v : Vec3) : Vec3 :=
  let len := sq (dot3 v)
  ⟨v.x / len, v.y / len, v.z / len⟩

/-- `GetHillsNormal`: builds
`n = ((7 / 40) * sinf((7 * x) / 1600), 1.0f, (7 / 40) * sinf((7 * z) / 1600))`
and normalizes it.  In C++ `7 / 40` divides two `int`s, so the slope
coefficient is the integer division `(7 : ℤ) / 40`; `sinf` is the parameter
`sn` and the normalize's square root the parameter `sq`. -/
def getHillsNormal (sn sq : ℚ → ℚ) (x z : ℚ) : Vec3 :=
  let cf : ℚ := ((7 / 40 : ℤ) : ℚ)
  normalize3 sq ⟨cf * sn ((7 * x) / 1600), 1, cf * sn ((7 * z) / 1600)⟩

/-- The vertex loop of `BuildLandGeometry`: copy the grid position, override
`y` with `GetHillsHeight`, set the normal from `GetHillsNormal`, copy `TexC`. -/
def buildLandVertices (c sn sq : ℚ → ℚ) (grid : List GridVertex) : List Vertex :=
  grid.map fun g =>
    { pos := ⟨g.pos.x, getHillsHeight c g.pos.x g.pos.z, g.pos.z⟩,
      normal := getHillsNormal sn sq g.pos.x g.pos.z,
      texC := g.texC }

lemma buildLandVertices_getD (c sn sq : ℚ → ℚ) (grid : List GridVertex)
    (i : Fin grid.length) :
    (buildLandVertices c sn sq grid).getD i.1 defaultVertex =
      { pos := ⟨(grid.get i).pos.x,
                getHillsHeight c (grid.get i).pos.x (grid.get i).pos.z,
                (grid.get i).pos.z⟩,
        normal := getHillsNormal sn sq (grid.get i).pos.x (grid.get i).pos.z,
        texC := (grid.get i).texC } := by
  unfold buildLandVertices
  rw [List.getD_eq_getElem?_getD, List.getElem?_map,
    List.getElem?_eq_getElem i.2]
  rfl

/-- **C7.** `BuildLandGeometry` displaces every grid vertex vertically and
only vertically: the output vertex at slot `i` keeps the grid vertex's `x`
and `z`, has `y = GetHillsHeight(x, z) = 40*(cos(x/1600*7) + cos(z/1600*7)) - 70`,
and copies the grid's texture coordinate unchanged. -/
theorem buildLandGeometry_vertical_displacement (c sn sq : ℚ → ℚ)
    (grid : List GridVertex) (i : Fin grid.length) :
    (buildLandVertices c sn sq grid).length = grid.length ∧
    ((buildLandVertices c sn sq grid).getD i.1 defaultVertex).pos.x =
      (grid.get i).pos.x ∧
    ((buildLandVertices c sn sq grid).getD i.1 defaultVertex).pos.z =
      (grid.get i).pos.z ∧
    ((buildLandVertices c sn sq grid).getD i.1 defaultVertex).pos.y =
      (40 * (c ((grid.get i).pos.x / 1600 * 7) +
             c ((grid.get i).pos.z / 1600 * 7))) - 70 ∧
    ((buildLandVertices c sn sq grid).getD i.1 defaultVertex).texC =
      (grid.get i).texC := by
  rw [buildLandVertices_getD]
  exact ⟨by simp [buildLandVertices], rfl, rfl, rfl, rfl⟩

/-- **C9.** For every input, `GetHillsNormal` returns exactly the unit up
vector `(0, 1, 0)`: the slope coefficient is the integer expression `7 / 40`,
which evaluates to `0`, so both slope components vanish before normalization
and normalizing `(0, 1, 0)` leaves it unchanged. -/
theorem getHillsNormal_constant_up (sn sq : ℚ → ℚ) (x z : ℚ)
    (hsq : sq 1 = 1) :
    ((7 / 40 : ℤ) : ℚ) = 0 ∧ getHillsNormal sn sq x z = ⟨0, 1, 0⟩ := by
  have hcf : ((7 / 40 : ℤ) : ℚ) = 0 := by norm_num
  refine ⟨hcf, ?_⟩
  unfold getHillsNormal normalize3
  rw [hcf]
  simp only [zero_mul]
  have hdot : dot3 ⟨0, 1, 0⟩ = 1 := by
    unfold dot3
    norm_num
  rw [hdot, hsq]
  simp

/-- Witness for C9 with `sinf` the zero function and the identity square
root (all the proof needs is `sq 1 = 1`), at the origin. -/
theorem getHillsNormal_constant_up_witness :
    (id (1 : ℚ) = 1) ∧
    (((7 / 40 : ℤ) : ℚ) = 0 ∧
      getHillsNormal (fun _ => 0) id 0 0 = ⟨0, 1, 0⟩) :=
  ⟨rfl, getHillsNormal_constant_up (fun _ => 0) id 0 0 rfl⟩

/-!
## UpdateObjectCBs: per-frame dirty tracking (both apps)

`UpdateObjectCBs` walks `mAllRitems`; for every render item with
`NumFramesDirty > 0` it stores the transposed `World` and `TexTransform`
matrices into the current frame resource's object constant buffer at slot
`ObjCBIndex` and decrements `NumFramesDirty`; all other items and slots are
untouched.  The constant buffers are modelled per frame as
`slot ↦ Option ObjectConstants`.
-/

/-- 4×4 float matrix (`XMFLOAT4X4`), entries as rationals. -/
def M4 : Type := Fin 4 → Fin 4 → ℚ

instance : DecidableEq M4 :=
  inferInstanceAs (DecidableEq (Fin 4 → Fin 4 → ℚ))

/-- `XMMatrixTranspose`. -/
def transpose4 (m : M4) : M4 := fun i j => m j i

/-- The `ObjectConstants` cbuffer layout: transposed `World` and
`TexTransform`. -/
structure ObjectConstants where
  world : M4
  texTransform : M4
deriving DecidableEq

/-- The fields of `RenderItem` that `UpdateObjectCBs` touches. -/
structure RenderItem where
  objCBIndex : ℕ
  world : M4
  texTransform : M4
  numFramesDirty : ℤ
deriving DecidableEq

/-- The constants `UpdateObjectCBs` stores for a dirty item:
`XMMatrixTranspose(world)` and `XMMatrixTranspose(texTransform)`. -/
def objConstantsOf (e : RenderItem) : ObjectConstants :=
  { world := transpose4 e.world, texTransform := transpose4 e.texTransform }

/-- Placeholder item for out-of-range `getD` accesses. -/
def defaultRenderItem : RenderItem :=
  { objCBIndex := 0, world := fun _ _ => 0, texTransform := fun _ _ => 0,
    numFramesDirty := 0 }

/-- The loop body of `UpdateObjectCBs` over the item list, threading the
current frame's object constant buffer. -/
def updateObjectCBsAux : List RenderItem → (ℕ → Option ObjectConstants) →
    List RenderItem × (ℕ → Option ObjectConstants)
  | [], cb => ([], cb)
  | e :: rest, cb =>
    if 0 < e.numFramesDirty then
      let cb1 := Function.update cb e.objCBIndex (some (objConstantsOf e))
      let r := updateObjectCBsAux rest cb1
      ({ e with numFramesDirty := e.numFramesDirty - 1 } :: r.1, r.2)
    else
      let r := updateObjectCBsAux rest cb
      (e :: r.1, r.2)

/-- The effect of one `UpdateObjectCBs` pass on a single item. -/
def decOne (e : RenderItem) : RenderItem :=
  if 0 < e.numFramesDirty then { e with numFramesDirty := e.numFramesDirty - 1 }
  else e

/-- The state `UpdateObjectCBs` works on: the current frame-resource index,
`mAllRitems`, and the object constant buffer of each frame resource
(frame ↦ slot ↦ contents). -/
structure ObjState where
  frameIdx : ℕ
  items : List RenderItem
  objCB : ℕ → ℕ → Option ObjectConstants

/-- `UpdateObjectCBs` on the current frame resource. -/
def updateObjectCBs (s : ObjState) : ObjState :=
  let r := updateObjectCBsAux s.items (s.objCB s.frameIdx)
  { s with items := r.1, objCB := Function.update s.objCB s.frameIdx r.2 }

/-- One `Update` as far as object constant buffers are concerned: advance the
frame-resource index (`(mCurrFrameResourceIndex + 1) % gNumFrameResources`),
then run `UpdateObjectCBs` on the newly current frame resource. -/
def objFrameStep (s : ObjState) : ObjState :=
  updateObjectCBs { s with frameIdx := (s.frameIdx + 1) % gNumFrameResources }

lemma decOne_pos {e : RenderItem} (h : 0 < e.numFramesDirty) :
    decOne e = { e with numFramesDirty := e.numFramesDirty - 1 } := by
  unfold decOne
  rw [if_pos h]

lemma decOne_neg {e : RenderItem} (h : ¬ 0 < e.numFramesDirty) : decOne e = e := by
  unfold decOne
  rw [if_neg h]

lemma updateObjectCBsAux_items (l : List RenderItem)
    (cb : ℕ → Option ObjectConstants) :
    (updateObjectCBsAux l cb).1 = l.map decOne := by
  induction l generalizing cb with
  | nil => rfl
  | cons e rest ih =>
    unfold updateObjectCBsAux
    rw [List.map_cons]
    by_cases h : 0 < e.numFramesDirty
    · rw [if_pos h, decOne_pos h]
      show { e with numFramesDirty := e.numFramesDirty - 1 } ::
          (updateObjectCBsAux rest
            (Function.update cb e.objCBIndex (some (objConstantsOf e)))).1 =
        { e with numFramesDirty := e.numFramesDirty - 1 } :: rest.map decOne
      rw [ih _]
    · rw [if_neg h, decOne_neg h]
      show e :: (updateObjectCBsAux rest cb).1 = e :: rest.map decOne
      rw [ih cb]

lemma updateObjectCBsAux_cb_untouched (l : List RenderItem)
    (cb : ℕ → Option ObjectConstants) (slot : ℕ)
    (h : ∀ e ∈ l, 0 < e.numFramesDirty → e.objCBIndex ≠ slot) :
    (updateObjectCBsAux l cb).2 slot = cb slot := by
  induction l generalizing cb with
  | nil => rfl
  | cons e rest ih =>
    unfold updateObjectCBsAux
    by_cases hd : 0 < e.numFramesDirty
    · rw [if_pos hd]
      have hne : e.objCBIndex ≠ slot := h e (List.mem_cons_self e rest) hd
      show (updateObjectCBsAux rest
          (Function.update cb e.objCBIndex (some (objConstantsOf e)))).2 slot = cb slot
      rw [ih _ (fun x hx => h x (List.mem_cons_of_mem e hx))]
      exact Function.update_noteq (Ne.symm hne) _ cb
    · rw [if_neg hd]
      show (updateObjectCBsAux rest cb).2 slot = cb slot
      exact ih _ (fun x hx => h x (List.mem_cons_of_mem e hx))

lemma updateObjectCBsAux_cb_written (l : List RenderItem)
    (cb : ℕ → Option ObjectConstants)
    (hnd : (l.map RenderItem.objCBIndex).Nodup) :
    ∀ (p : ℕ) (hp : p < l.length),
      0 < (l.get ⟨p, hp⟩).numFramesDirty →
      (updateObjectCBsAux l cb).2 (l.get ⟨p, hp⟩).objCBIndex =
        some (objConstantsOf (l.get ⟨p, hp⟩)) := by
  induction l generalizing cb with
  | nil => intro p hp; exact absurd hp (by simp)
  | cons e rest ih =>
    rw [List.map_cons, List.nodup_cons] at hnd
    obtain ⟨hhead, htail⟩ := hnd
    intro p hp hdirty
    match p with
    | 0 =>
      rw [show (e :: rest).get ⟨0, hp⟩ = e from rfl] at hdirty ⊢
      unfold updateObjectCBsAux
      rw [if_pos hdirty]
      show (updateObjectCBsAux rest
          (Function.update cb e.objCBIndex (some (objConstantsOf e)))).2
          e.objCBIndex = some (objConstantsOf e)
      have hnot : ∀ x ∈ rest, 0 < x.numFramesDirty → x.objCBIndex ≠ e.objCBIndex := by
        intro x hx _ hcontra
        exact hhead (by
          rw [List.mem_map]
          exact ⟨x, hx, hcontra⟩)
      rw [updateObjectCBsAux_cb_untouched rest _ _ hnot]
      exact Function.update_same _ _ _
    | p' + 1 =>
      have hp' : p' < rest.length := by simpa using hp
      rw [show (e :: rest).get ⟨p' + 1, hp⟩ = rest.get ⟨p', hp'⟩ from rfl] at hdirty ⊢
      unfold updateObjectCBsAux
      by_cases hd : 0 < e.numFramesDirty
      · rw [if_pos hd]
        show (updateObjectCBsAux rest
            (Function.update cb e.objCBIndex (some (objConstantsOf e)))).2
            (rest.get ⟨p', hp'⟩).objCBIndex = some (objConstantsOf (rest.get ⟨p', hp'⟩))
        exact ih _ htail p' hp' hdirty
      · rw [if_neg hd]
        show (updateObjectCBsAux rest cb).2
            (rest.get ⟨p', hp'⟩).objCBIndex = some (objConstantsOf (rest.get ⟨p', hp'⟩))
        exact ih _ htail p' hp' hdirty

lemma decOne_objCBIndex (e : RenderItem) : (decOne e).objCBIndex = e.objCBIndex := by
  unfold decOne; split <;> rfl

lemma decOne_world (e : RenderItem) : (decOne e).world = e.world := by
  unfold decOne; split <;> rfl

lemma decOne_texTransform (e : RenderItem) :
    (decOne e).texTransform = e.texTransform := by
  unfold decOne; split <;> rfl

lemma objConstantsOf_decOne (e : RenderItem) :
    objConstantsOf (decOne e) = objConstantsOf e := by
  unfold objConstantsOf
  rw [decOne_world, decOne_texTransform]

lemma map_decOne_objCBIndex (l : List RenderItem) :
    ((l.map decOne).map RenderItem.objCBIndex) = l.map RenderItem.objCBIndex := by
  rw [List.map_map]
  exact List.map_congr_left fun e _ => decOne_objCBIndex e

lemma objFrameStep_frameIdx (s : ObjState) :
    (objFrameStep s).frameIdx = (s.frameIdx + 1) % 3 := rfl

lemma objFrameStep_items (s : ObjState) :
    (objFrameStep s).items = s.items.map decOne := by
  unfold objFrameStep updateObjectCBs
  exact updateObjectCBsAux_items _ _

lemma objFrameStep_objCB (s : ObjState) :
    (objFrameStep s).objCB = Function.update s.objCB ((s.frameIdx + 1) % 3)
      ((updateObjectCBsAux s.items (s.objCB ((s.frameIdx + 1) % 3))).2) := rfl

lemma objFrameStep_objCB_other (s : ObjState) (f : ℕ)
    (hf : f ≠ (s.frameIdx + 1) % 3) :
    (objFrameStep s).objCB f = s.objCB f := by
  rw [objFrameStep_objCB]
  exact Function.update_noteq hf _ _

lemma objFrameStep_objCB_curr (s : ObjState) :
    (objFrameStep s).objCB ((s.frameIdx + 1) % 3) =
      (updateObjectCBsAux s.items (s.objCB ((s.frameIdx + 1) % 3))).2 := by
  rw [objFrameStep_objCB]
  exact Function.update_same _ _ _

lemma getD_map_decOne (l : List RenderItem) (p : ℕ) (hp : p < l.length) :
    (l.map decOne).getD p defaultRenderItem = decOne (l.get ⟨p, hp⟩) := by
  rw [List.getD_eq_getElem?_getD, List.getElem?_map,
    List.getElem?_eq_getElem hp]
  rfl

lemma nodup_index_unique (l : List RenderItem)
    (hnd : (l.map RenderItem.objCBIndex).Nodup)
    (p : ℕ) (hp : p < l.length) :
    ∀ x ∈ l, x.objCBIndex = (l.get ⟨p, hp⟩).objCBIndex → x = l.get ⟨p, hp⟩ := by
  intro x hx hidx
  obtain ⟨q, hq, rfl⟩ := List.mem_iff_getElem.mp hx
  have hql : q < (l.map RenderItem.objCBIndex).length := by
    rw [List.length_map]; exact hq
  have hpl : p < (l.map RenderItem.objCBIndex).length := by
    rw [List.length_map]; exact hp
  have h1 : (l.map RenderItem.objCBIndex).get ⟨q, hql⟩ =
      (l.map RenderItem.objCBIndex).get ⟨p, hpl⟩ := by
    show (l.map RenderItem.objCBIndex)[q] = (l.map RenderItem.objCBIndex)[p]
    rw [List.getElem_map, List.getElem_map]
    exact hidx
  have h2 : q = p := by
    have := (List.Nodup.getElem_inj_iff hnd).mp h1
    exact this
  subst h2
  rfl

lemma objFrameStep_items_length (s : ObjState) :
    (objFrameStep s).items.length = s.items.length := by
  rw [objFrameStep_items, List.length_map]

lemma objFrameStep_nodup (s : ObjState)
    (hnd : (s.items.map RenderItem.objCBIndex).Nodup) :
    ((objFrameStep s).items.map RenderItem.objCBIndex).Nodup := by
  rw [objFrameStep_items, map_decOne_objCBIndex]
  exact hnd

lemma objFrameStep_get (s : ObjState) (p : ℕ) (hp : p < s.items.length)
    (hp1 : p < (objFrameStep s).items.length) :
    (objFrameStep s).items.get ⟨p, hp1⟩ = decOne (s.items.get ⟨p, hp⟩) := by
  show ((objFrameStep s).items)[p] = decOne ((s.items)[p])
  simp only [objFrameStep_items, List.getElem_map]

lemma objFrameStep_getD (s : ObjState) (p : ℕ) (hp : p < s.items.length) :
    (objFrameStep s).items.getD p defaultRenderItem =
      decOne (s.items.get ⟨p, hp⟩) := by
  rw [objFrameStep_items]
  exact getD_map_decOne _ _ hp

lemma objFrameStep_writes (s : ObjState)
    (hnd : (s.items.map RenderItem.objCBIndex).Nodup)
    (p : ℕ) (hp : p < s.items.length)
    (hd : 0 < (s.items.get ⟨p, hp⟩).numFramesDirty) :
    (objFrameStep s).objCB ((s.frameIdx + 1) % 3)
        (s.items.get ⟨p, hp⟩).objCBIndex =
      some (objConstantsOf (s.items.get ⟨p, hp⟩)) := by
  rw [objFrameStep_objCB_curr]
  exact updateObjectCBsAux_cb_written s.items _ hnd p hp hd

/-- **C8.** `UpdateObjectCBs` writes the current frame's object constant
buffer only at slots of render items with `NumFramesDirty > 0`, decrementing
each such counter by one; every other item, every slot not owned by a dirty
item, and every other frame's buffer is unchanged; and an item modified with
`NumFramesDirty = gNumFrameResources = 3` has, after three consecutive
`Update`s with no further modification, counter 0 and its transposed `World`
and `TexTransform` in all three frame resources' object constant buffers. -/
theorem updateObjectCBs_dirty_tracking (s : ObjState)
    (hnd : (s.items.map RenderItem.objCBIndex).Nodup)
    (p : ℕ) (hp : p < s.items.length) :
    (0 < (s.items.get ⟨p, hp⟩).numFramesDirty →
      ((objFrameStep s).items.getD p defaultRenderItem).numFramesDirty =
        (s.items.get ⟨p, hp⟩).numFramesDirty - 1 ∧
      (objFrameStep s).objCB ((s.frameIdx + 1) % 3)
          (s.items.get ⟨p, hp⟩).objCBIndex =
        some (objConstantsOf (s.items.get ⟨p, hp⟩))) ∧
    ((s.items.get ⟨p, hp⟩).numFramesDirty ≤ 0 →
      (objFrameStep s).items.getD p defaultRenderItem = s.items.get ⟨p, hp⟩ ∧
      (∀ f, (objFrameStep s).objCB f (s.items.get ⟨p, hp⟩).objCBIndex =
        s.objCB f (s.items.get ⟨p, hp⟩).objCBIndex)) ∧
    (∀ slot, (∀ x ∈ s.items, 0 < x.numFramesDirty → x.objCBIndex ≠ slot) →
      ∀ f, (objFrameStep s).objCB f slot = s.objCB f slot) ∧
    (∀ f, f ≠ (s.frameIdx + 1) % 3 → (objFrameStep s).objCB f = s.objCB f) ∧
    (s.frameIdx < 3 → (s.items.get ⟨p, hp⟩).numFramesDirty = 3 →
      ((objFrameStep (objFrameStep (objFrameStep s))).items.getD p
          defaultRenderItem).numFramesDirty = 0 ∧
      (∀ f, f < 3 →
        (objFrameStep (objFrameStep (objFrameStep s))).objCB f
            (s.items.get ⟨p, hp⟩).objCBIndex =
          some (objConstantsOf (s.items.get ⟨p, hp⟩)))) := by
  refine ⟨?_, ?_, ?_, ?_, ?_⟩
  · intro hd
    refine ⟨?_, objFrameStep_writes s hnd p hp hd⟩
    rw [objFrameStep_getD s p hp, decOne_pos hd]
  · intro hclean
    have hnd0 : ¬ 0 < (s.items.get ⟨p, hp⟩).numFramesDirty := by omega
    refine ⟨?_, ?_⟩
    · rw [objFrameStep_getD s p hp, decOne_neg hnd0]
    · intro f
      by_cases hf : f = (s.frameIdx + 1) % 3
      · subst hf
        rw [objFrameStep_objCB_curr]
        apply updateObjectCBsAux_cb_untouched
        intro x hx hxd hcontra
        have hxe := nodup_index_unique s.items hnd p hp x hx hcontra
        rw [hxe] at hxd
        exact hnd0 hxd
      · rw [objFrameStep_objCB_other s f hf]
  · intro slot hslot f
    by_cases hf : f = (s.frameIdx + 1) % 3
    · subst hf
      rw [objFrameStep_objCB_curr]
      exact updateObjectCBsAux_cb_untouched _ _ _ hslot
    · rw [objFrameStep_objCB_other s f hf]
  · intro f hf
    exact objFrameStep_objCB_other s f hf
  · intro hi3 hd3
    have hp1 : p < (objFrameStep s).items.length := by
      rw [objFrameStep_items_length]; exact hp
    have hp2 : p < (objFrameStep (objFrameStep s)).items.length := by
      rw [objFrameStep_items_length]; exact hp1
    have hnd1 := objFrameStep_nodup s hnd
    have hnd2 := objFrameStep_nodup _ hnd1
    have hg1 : (objFrameStep s).items.get ⟨p, hp1⟩ =
        decOne (s.items.get ⟨p, hp⟩) := objFrameStep_get s p hp hp1
    have hg2 : (objFrameStep (objFrameStep s)).items.get ⟨p, hp2⟩ =
        decOne (decOne (s.items.get ⟨p, hp⟩)) := by
      rw [objFrameStep_get _ p hp1 hp2, hg1]
    have hd1 : (decOne (s.items.get ⟨p, hp⟩)).numFramesDirty = 2 := by
      rw [decOne_pos (by omega)]
      show (s.items.get ⟨p, hp⟩).numFramesDirty - 1 = 2
      omega
    have hd2 : (decOne (decOne (s.items.get ⟨p, hp⟩))).numFramesDirty = 1 := by
      rw [decOne_pos (by rw [hd1]; norm_num)]
      show (decOne (s.items.get ⟨p, hp⟩)).numFramesDirty - 1 = 1
      rw [hd1]
      norm_num
    have hdd : (decOne (decOne (decOne (s.items.get ⟨p, hp⟩)))).numFramesDirty = 0 := by
      rw [decOne_pos (by rw [hd2]; norm_num)]
      show (decOne (decOne (s.items.get ⟨p, hp⟩))).numFramesDirty - 1 = 0
      rw [hd2]
      norm_num
    have hf1 : (objFrameStep s).frameIdx = (s.frameIdx + 1) % 3 :=
      objFrameStep_frameIdx s
    have hf2 : (objFrameStep (objFrameStep s)).frameIdx =
        ((s.frameIdx + 1) % 3 + 1) % 3 := by
      rw [objFrameStep_frameIdx, hf1]
    have hA := objFrameStep_writes s hnd p hp (by omega)
    have hB := objFrameStep_writes (objFrameStep s) hnd1 p hp1
      (by rw [hg1, hd1]; norm_num)
    rw [hg1, decOne_objCBIndex, objConstantsOf_decOne, hf1] at hB
    have hC := objFrameStep_writes (objFrameStep (objFrameStep s)) hnd2 p hp2
      (by rw [hg2, hd2]; norm_num)
    rw [hg2, decOne_objCBIndex, decOne_objCBIndex, objConstantsOf_decOne,
      objConstantsOf_decOne, hf2] at hC
    have hP21 : (objFrameStep (objFrameStep s)).objCB ((s.frameIdx + 1) % 3) =
        (objFrameStep s).objCB ((s.frameIdx + 1) % 3) :=
      objFrameStep_objCB_other _ _ (by rw [hf1]; omega)
    have hP31 : (objFrameStep (objFrameStep (objFrameStep s))).objCB
          ((s.frameIdx + 1) % 3) =
        (objFrameStep (objFrameStep s)).objCB ((s.frameIdx + 1) % 3) :=
      objFrameStep_objCB_other _ _ (by rw [hf2]; omega)
    have hP32 : (objFrameStep (objFrameStep (objFrameStep s))).objCB
          (((s.frameIdx + 1) % 3 + 1) % 3) =
        (objFrameStep (objFrameStep s)).objCB (((s.frameIdx + 1) % 3 + 1) % 3) :=
      objFrameStep_objCB_other _ _ (by rw [hf2]; omega)
    refine ⟨?_, ?_⟩
    · rw [objFrameStep_getD _ p hp2, hg2, hdd]
    · intro f hf3
      have hcases : f = (s.frameIdx + 1) % 3 ∨
          f = ((s.frameIdx + 1) % 3 + 1) % 3 ∨
          f = (((s.frameIdx + 1) % 3 + 1) % 3 + 1) % 3 := by omega
      rcases hcases with rfl | rfl | rfl
      · rw [hP31, hP21]
        exact hA
      · rw [hP32]
        exact hB
      · exact hC

/-- A concrete two-item scene for the C8 witness: item 0 freshly modified
(`NumFramesDirty = 3`), item 1 clean. -/
def c8State : ObjState :=
  { frameIdx := 0,
    items :=
      [{ objCBIndex := 0, world := fun _ _ => 1, texTransform := fun _ _ => 2,
         numFramesDirty := 3 },
       { objCBIndex := 1, world := fun _ _ => 5, texTransform := fun _ _ => 6,
         numFramesDirty := 0 }],
    objCB := fun _ _ => none }

/-- Witness for C8 on `c8State`, item 0. -/
theorem updateObjectCBs_dirty_tracking_witness :
    ((c8State.items.map RenderItem.objCBIndex).Nodup ∧ 0 < c8State.items.length) ∧
    ((0 < (c8State.items.get ⟨0, by decide⟩).numFramesDirty →
      ((objFrameStep c8State).items.getD 0 defaultRenderItem).numFramesDirty =
        (c8State.items.get ⟨0, by decide⟩).numFramesDirty - 1 ∧
      (objFrameStep c8State).objCB ((c8State.frameIdx + 1) % 3)
          (c8State.items.get ⟨0, by decide⟩).objCBIndex =
        some (objConstantsOf (c8State.items.get ⟨0, by decide⟩))) ∧
    ((c8State.items.get ⟨0, by decide⟩).numFramesDirty ≤ 0 →
      (objFrameStep c8State).items.getD 0 defaultRenderItem =
        c8State.items.get ⟨0, by decide⟩ ∧
      (∀ f, (objFrameStep c8State).objCB f
          (c8State.items.get ⟨0, by decide⟩).objCBIndex =
        c8State.objCB f (c8State.items.get ⟨0, by decide⟩).objCBIndex)) ∧
    (∀ slot, (∀ x ∈ c8State.items, 0 < x.numFramesDirty → x.objCBIndex ≠ slot) →
      ∀ f, (objFrameStep c8State).objCB f slot = c8State.objCB f slot) ∧
    (∀ f, f ≠ (c8State.frameIdx + 1) % 3 →
      (objFrameStep c8State).objCB f = c8State.objCB f) ∧
    (c8State.frameIdx < 3 → (c8State.items.get ⟨0, by decide⟩).numFramesDirty = 3 →
      ((objFrameStep (objFrameStep (objFrameStep c8State))).items.getD 0
          defaultRenderItem).numFramesDirty = 0 ∧
      (∀ f, f < 3 →
        (objFrameStep (objFrameStep (objFrameStep c8State))).objCB f
            (c8State.items.get ⟨0, by decide⟩).objCBIndex =
          some (objConstantsOf (c8State.items.get ⟨0, by decide⟩))))) :=
  ⟨⟨by decide, by decide⟩,
    updateObjectCBs_dirty_tracking c8State (by decide) 0 (by decide)⟩

/-!
## BuildBoxGeometry: vertex packing and the TexC local-index slip
(TreeBillboardsApp)

`BuildBoxGeometry` concatenates nine generated shapes into one vertex
buffer.  Each per-shape loop advances a running concatenated index `k` along
with the local index `i` and assigns `vertices[k].Pos` and
`vertices[k].Normal` from the shape — but `vertices[i].TexC`, with the
per-shape LOCAL index, for every shape after the first (in the first loop,
over `box`, `k == i`, so the uniform model below also covers it: it writes
position and normal at offset `0 + i` and TexC at `i`).  The generated
shapes (GeometryGenerator is not under src/) enter as a parameter: a list of
per-shape vertex lists.
-/

/-- `vertices[idx].Pos = v.Pos; vertices[idx].Normal = v.Normal;` leaving
the slot's `TexC` alone. -/
def writePosNormal (arr : ℕ → Vertex) (idx : ℕ) (v : Vertex) : ℕ → Vertex :=
  Function.update arr idx { arr idx with pos := v.pos, normal := v.normal }

/-- `vertices[idx].TexC = v.TexC;` leaving the slot's position and normal
alone. -/
def writeTexC (arr : ℕ → Vertex) (idx : ℕ) (v : Vertex) : ℕ → Vertex :=
  Function.update arr idx { arr idx with texC := v.texC }

/-- One per-shape copy loop of `BuildBoxGeometry`, at concatenation offset
`o` with local index `i`: position and normal go to slot `o + i` (the
running index `k`), the texture coordinate to slot `i`. -/
def shapeLoop (o : ℕ) : ℕ → List Vertex → (ℕ → Vertex) → (ℕ → Vertex)
  | _, [], arr => arr
  | i, v :: rest, arr =>
      shapeLoop o (i + 1) rest (writeTexC (writePosNormal arr (o + i) v) i v)

/-- The sequence of per-shape loops, threading the running offset. -/
def buildShapesAux : List (List Vertex) → ℕ → (ℕ → Vertex) → (ℕ → Vertex)
  | [], _, arr => arr
  | sh :: rest, o, arr => buildShapesAux rest (o + sh.length) (shapeLoop o 0 sh arr)

/-- The vertex buffer `BuildBoxGeometry` builds from the list of generated
shapes, starting from the value-initialized
`std::vector<Vertex> vertices(totalVertexCount)`. -/
def buildShapesVertices (shapes : List (List Vertex)) : ℕ → Vertex :=
  buildShapesAux shapes 0 (fun _ => defaultVertex)

/-- The concatenation offset of shape `t`: the sum of the lengths of the
shapes before it. -/
def shapeOffset (shapes : List (List Vertex)) (t : ℕ) : ℕ :=
  ((shapes.take t).map List.length).sum

/-- What the interleaved `vertices[i].TexC` writes leave at slot `idx`: the
last shape with more than `idx` vertices contributes its LOCAL vertex `idx`;
slots no shape reaches keep the value-initialized default. -/
def lastShapeTexC (shapes : List (List Vertex)) (idx : ℕ) : Vec2 :=
  shapes.foldl
    (fun a sh => if h : idx < sh.length then (sh.get ⟨idx, h⟩).texC else a)
    defaultVertex.texC

lemma writePosNormal_texC (arr : ℕ → Vertex) (j idx : ℕ) (v : Vertex) :
    ((writePosNormal arr j v) idx).texC = (arr idx).texC := by
  unfold writePosNormal
  rw [Function.update_apply]
  by_cases h : idx = j
  · rw [if_pos h, h]
  · rw [if_neg h]

lemma writeTexC_pos (arr : ℕ → Vertex) (j idx : ℕ) (v : Vertex) :
    ((writeTexC arr j v) idx).pos = (arr idx).pos := by
  unfold writeTexC
  rw [Function.update_apply]
  by_cases h : idx = j
  · rw [if_pos h, h]
  · rw [if_neg h]

lemma writeTexC_normal (arr : ℕ → Vertex) (j idx : ℕ) (v : Vertex) :
    ((writeTexC arr j v) idx).normal = (arr idx).normal := by
  unfold writeTexC
  rw [Function.update_apply]
  by_cases h : idx = j
  · rw [if_pos h, h]
  · rw [if_neg h]

lemma shapeLoop_texC (o : ℕ) (sh : List Vertex) :
    ∀ (i idx : ℕ) (arr : ℕ → Vertex),
      (shapeLoop o i sh arr idx).texC =
        if h : i ≤ idx ∧ idx < i + sh.length
        then (sh.get ⟨idx - i, by omega⟩).texC
        else (arr idx).texC := by
  induction sh with
  | nil =>
    intro i idx arr
    simp only [List.length_nil]
    rw [dif_neg (by omega)]
    rfl
  | cons v rest ih =>
    intro i idx arr
    show (shapeLoop o (i + 1) rest
        (writeTexC (writePosNormal arr (o + i) v) i v) idx).texC = _
    rw [ih (i + 1) idx _]
    simp only [List.length_cons]
    by_cases h1 : (i + 1) ≤ idx ∧ idx < (i + 1) + rest.length
    · rw [dif_pos h1, dif_pos (show i ≤ idx ∧ idx < i + (rest.length + 1) from by omega)]
      have hlt1 : idx - i < (v :: rest).length := by
        simp only [List.length_cons]
        omega
      have hlt2 : idx - (i + 1) < rest.length := by omega
      show (rest.get ⟨idx - (i + 1), hlt2⟩).texC =
        ((v :: rest).get ⟨idx - i, hlt1⟩).texC
      have hfin : (⟨idx - i, hlt1⟩ : Fin (v :: rest).length) =
          ⟨(idx - (i + 1)) + 1, by simp only [List.length_cons]; omega⟩ :=
        Fin.ext (show idx - i = (idx - (i + 1)) + 1 from by omega)
      rw [hfin]
      rfl
    · rw [dif_neg h1]
      unfold writeTexC
      rw [Function.update_apply]
      by_cases h2 : idx = i
      · subst h2
        rw [if_pos rfl,
          dif_pos (show idx ≤ idx ∧ idx < idx + (rest.length + 1) from by omega)]
        have hlt0 : idx - idx < (v :: rest).length := by
          simp only [List.length_cons]
          omega
        show v.texC = ((v :: rest).get ⟨idx - idx, hlt0⟩).texC
        have hfin : (⟨idx - idx, hlt0⟩ : Fin (v :: rest).length) =
            ⟨0, by simp only [List.length_cons]; omega⟩ :=
          Fin.ext (Nat.sub_self idx)
        rw [hfin]
        rfl
      · rw [if_neg h2, writePosNormal_texC, dif_neg (by omega)]

lemma writePosNormal_pos (arr : ℕ → Vertex) (j : ℕ) (v : Vertex) (idx : ℕ) :
    ((writePosNormal arr j v) idx).pos = if idx = j then v.pos else (arr idx).pos := by
  unfold writePosNormal
  rw [Function.update_apply, apply_ite Vertex.pos]

lemma writePosNormal_normal (arr : ℕ → Vertex) (j : ℕ) (v : Vertex) (idx : ℕ) :
    ((writePosNormal arr j v) idx).normal =
      if idx = j then v.normal else (arr idx).normal := by
  unfold writePosNormal
  rw [Function.update_apply, apply_ite Vertex.normal]

lemma shapeLoop_geom (g : Vertex → Vec3)
    (hw : ∀ (arr : ℕ → Vertex) (j : ℕ) (v : Vertex) (idx : ℕ),
      g ((writeTexC arr j v) idx) = g (arr idx))
    (hp : ∀ (arr : ℕ → Vertex) (j : ℕ) (v : Vertex) (idx : ℕ),
      g ((writePosNormal arr j v) idx) = if idx = j then g v else g (arr idx))
    (o : ℕ) (sh : List Vertex) :
    ∀ (i idx : ℕ) (arr : ℕ → Vertex),
      g (shapeLoop o i sh arr idx) =
        if h : o + i ≤ idx ∧ idx < o + i + sh.length
        then g (sh.get ⟨idx - (o + i), by omega⟩)
        else g (arr idx) := by
  induction sh with
  | nil =>
    intro i idx arr
    simp only [List.length_nil]
    rw [dif_neg (by omega)]
    rfl
  | cons v rest ih =>
    intro i idx arr
    show g (shapeLoop o (i + 1) rest
        (writeTexC (writePosNormal arr (o + i) v) i v) idx) = _
    rw [ih (i + 1) idx _]
    simp only [List.length_cons]
    by_cases h1 : o + (i + 1) ≤ idx ∧ idx < o + (i + 1) + rest.length
    · rw [dif_pos h1,
        dif_pos (show o + i ≤ idx ∧ idx < o + i + (rest.length + 1) from by omega)]
      have hlt1 : idx - (o + i) < (v :: rest).length := by
        simp only [List.length_cons]
        omega
      have hlt2 : idx - (o + (i + 1)) < rest.length := by omega
      show g (rest.get ⟨idx - (o + (i + 1)), hlt2⟩) =
        g ((v :: rest).get ⟨idx - (o + i), hlt1⟩)
      have hfin : (⟨idx - (o + i), hlt1⟩ : Fin (v :: rest).length) =
          ⟨(idx - (o + (i + 1))) + 1, by simp only [List.length_cons]; omega⟩ :=
        Fin.ext (show idx - (o + i) = (idx - (o + (i + 1))) + 1 from by omega)
      rw [hfin]
      rfl
    · rw [dif_neg h1, hw, hp]
      by_cases h2 : idx = o + i
      · rw [if_pos h2,
          dif_pos (show o + i ≤ idx ∧ idx < o + i + (rest.length + 1) from by omega)]
        have hlt0 : idx - (o + i) < (v :: rest).length := by
          simp only [List.length_cons]
          omega
        show g v = g ((v :: rest).get ⟨idx - (o + i), hlt0⟩)
        have hfin : (⟨idx - (o + i), hlt0⟩ : Fin (v :: rest).length) =
            ⟨0, by simp only [List.length_cons]; omega⟩ :=
          Fin.ext (show idx - (o + i) = 0 from by omega)
        rw [hfin]
        rfl
      · rw [if_neg h2, dif_neg (by omega)]

lemma buildShapesAux_texC (shapes : List (List Vertex)) :
    ∀ (o : ℕ) (arr : ℕ → Vertex) (idx : ℕ),
      (buildShapesAux shapes o arr idx).texC =
        shapes.foldl
          (fun a sh => if h : idx < sh.length then (sh.get ⟨idx, h⟩).texC else a)
          ((arr idx).texC) := by
  induction shapes with
  | nil => intro o arr idx; rfl
  | cons sh rest ih =>
    intro o arr idx
    show (buildShapesAux rest (o + sh.length) (shapeLoop o 0 sh arr) idx).texC = _
    rw [ih (o + sh.length) _ idx]
    simp only [List.foldl_cons]
    congr 1
    rw [shapeLoop_texC o sh 0 idx arr]
    by_cases h : idx < sh.length
    · rw [dif_pos (show 0 ≤ idx ∧ idx < 0 + sh.length from by omega), dif_pos h]
      have hfin : (⟨idx - 0, by omega⟩ : Fin sh.length) = ⟨idx, h⟩ :=
        Fin.ext (Nat.sub_zero idx)
      rw [hfin]
    · rw [dif_neg (by omega), dif_neg h]

lemma buildShapesAux_geom_below (g : Vertex → Vec3)
    (hw : ∀ (arr : ℕ → Vertex) (j : ℕ) (v : Vertex) (idx : ℕ),
      g ((writeTexC arr j v) idx) = g (arr idx))
    (hp : ∀ (arr : ℕ → Vertex) (j : ℕ) (v : Vertex) (idx : ℕ),
      g ((writePosNormal arr j v) idx) = if idx = j then g v else g (arr idx))
    (shapes : List (List Vertex)) :
    ∀ (o : ℕ) (arr : ℕ → Vertex) (idx : ℕ), idx < o →
      g (buildShapesAux shapes o arr idx) = g (arr idx) := by
  induction shapes with
  | nil => intro o arr idx _; rfl
  | cons sh rest ih =>
    intro o arr idx hlt
    show g (buildShapesAux rest (o + sh.length) (shapeLoop o 0 sh arr) idx) = _
    rw [ih (o + sh.length) _ idx (by omega)]
    rw [shapeLoop_geom g hw hp o sh 0 idx arr, dif_neg (by omega)]

lemma shapeOffset_zero (shapes : List (List Vertex)) : shapeOffset shapes 0 = 0 := rfl

lemma shapeOffset_cons_succ (sh : List Vertex) (rest : List (List Vertex)) (t : ℕ) :
    shapeOffset (sh :: rest) (t + 1) = sh.length + shapeOffset rest t := by
  simp [shapeOffset, List.take_succ_cons]

lemma buildShapesAux_geom_owner (g : Vertex → Vec3)
    (hw : ∀ (arr : ℕ → Vertex) (j : ℕ) (v : Vertex) (idx : ℕ),
      g ((writeTexC arr j v) idx) = g (arr idx))
    (hp : ∀ (arr : ℕ → Vertex) (j : ℕ) (v : Vertex) (idx : ℕ),
      g ((writePosNormal arr j v) idx) = if idx = j then g v else g (arr idx))
    (shapes : List (List Vertex)) :
    ∀ (o : ℕ) (arr : ℕ → Vertex) (t : ℕ) (ht : t < shapes.length) (idx : ℕ)
      (hlo : o + shapeOffset shapes t ≤ idx)
      (hhi : idx < o + shapeOffset shapes t + (shapes.get ⟨t, ht⟩).length),
      g (buildShapesAux shapes o arr idx) =
        g ((shapes.get ⟨t, ht⟩).get
            ⟨idx - (o + shapeOffset shapes t), by omega⟩) := by
  induction shapes with
  | nil => intro o arr t ht; exact absurd ht (by simp)
  | cons sh rest ih =>
    intro o arr t ht idx hlo hhi
    match t with
    | 0 =>
      rw [shapeOffset_zero] at hlo hhi
      have hhi' : idx < o + sh.length := by
        have hg : ((sh :: rest).get ⟨0, ht⟩) = sh := rfl
        rw [hg] at hhi
        omega
      show g (buildShapesAux rest (o + sh.length) (shapeLoop o 0 sh arr) idx) = _
      rw [buildShapesAux_geom_below g hw hp rest (o + sh.length) _ idx (by omega)]
      rw [shapeLoop_geom g hw hp o sh 0 idx arr,
        dif_pos (show o + 0 ≤ idx ∧ idx < o + 0 + sh.length from by omega)]
      rfl
    | t' + 1 =>
      have ht' : t' < rest.length := by simpa using ht
      have hoff := shapeOffset_cons_succ sh rest t'
      have hget : ((sh :: rest).get ⟨t' + 1, ht⟩) = rest.get ⟨t', ht'⟩ := rfl
      have hlo' : (o + sh.length) + shapeOffset rest t' ≤ idx := by
        rw [hoff] at hlo
        omega
      have hhi' : idx <
          (o + sh.length) + shapeOffset rest t' + (rest.get ⟨t', ht'⟩).length := by
        rw [hoff, hget] at hhi
        omega
      show g (buildShapesAux rest (o + sh.length) (shapeLoop o 0 sh arr) idx) = _
      rw [ih (o + sh.length) _ t' ht' idx hlo' hhi']
      have hA : idx - ((o + sh.length) + shapeOffset rest t') <
          (rest.get ⟨t', ht'⟩).length := by omega
      have hB : idx - (o + shapeOffset (sh :: rest) (t' + 1)) <
          (rest.get ⟨t', ht'⟩).length := by
        rw [hoff]
        omega
      show g ((rest.get ⟨t', ht'⟩).get
          ⟨idx - ((o + sh.length) + shapeOffset rest t'), hA⟩) =
        g ((rest.get ⟨t', ht'⟩).get
          ⟨idx - (o + shapeOffset (sh :: rest) (t' + 1)), hB⟩)
      have hfin : (⟨idx - ((o + sh.length) + shapeOffset rest t'), hA⟩ :
          Fin (rest.get ⟨t', ht'⟩).length) =
          ⟨idx - (o + shapeOffset (sh :: rest) (t' + 1)), hB⟩ :=
        Fin.ext (by
          show idx - ((o + sh.length) + shapeOffset rest t') =
            idx - (o + shapeOffset (sh :: rest) (t' + 1))
          rw [hoff]
          omega)
      rw [hfin]

lemma lastShapeTexC_of_all_short (shapes : List (List Vertex)) (k : ℕ)
    (h : ∀ sh ∈ shapes, sh.length ≤ k) :
    lastShapeTexC shapes k = defaultVertex.texC := by
  unfold lastShapeTexC
  induction shapes with
  | nil => rfl
  | cons sh rest ih =>
    rw [List.foldl_cons, dif_neg (by
      have := h sh (List.mem_cons_self sh rest)
      omega)]
    exact ih (fun x hx => h x (List.mem_cons_of_mem sh hx))

lemma shapeOffset_head_le (shapes : List (List Vertex)) (t : ℕ)
    (h1 : 1 ≤ t) (h0 : 0 < shapes.length) :
    (shapes.getD 0 []).length ≤ shapeOffset shapes t := by
  cases shapes with
  | nil => simp at h0
  | cons sh rest =>
    obtain ⟨t', rfl⟩ : ∃ t', t = t' + 1 := ⟨t - 1, by omega⟩
    rw [shapeOffset_cons_succ]
    show sh.length ≤ sh.length + shapeOffset rest t'
    omega

/-- **C10 (amended).** In `BuildBoxGeometry`, position and normal of the
concatenated vertex `k` owned by shape `t` come from that shape's local
vertex `k - offset(t)`, but for every `k ≥ box.Vertices.size()` the TexC
finally stored at `k` comes from LOCAL index `k` of the last shape with more
than `k` vertices — or stays at its value-initialized default when no shape
has more than `k` vertices — and never from the vertex's own shape data at
local index `k - offset(t)`, since `offset(t) ≥ box.Vertices.size() > 0`
makes `k - offset(t) ≠ k`. -/
theorem buildBoxGeometry_texC_never_own (shapes : List (List Vertex))
    (t : ℕ) (ht : t < shapes.length) (k : ℕ)
    (hlen0 : 0 < (shapes.getD 0 []).length)
    (hbox : (shapes.getD 0 []).length ≤ k)
    (hlo : shapeOffset shapes t ≤ k)
    (hhi : k < shapeOffset shapes t + (shapes.get ⟨t, ht⟩).length) :
    (buildShapesVertices shapes k).texC = lastShapeTexC shapes k ∧
    ((∀ sh ∈ shapes, sh.length ≤ k) →
      (buildShapesVertices shapes k).texC = defaultVertex.texC) ∧
    (buildShapesVertices shapes k).pos =
      ((shapes.get ⟨t, ht⟩).get ⟨k - shapeOffset shapes t, by omega⟩).pos ∧
    (buildShapesVertices shapes k).normal =
      ((shapes.get ⟨t, ht⟩).get ⟨k - shapeOffset shapes t, by omega⟩).normal ∧
    0 < shapeOffset shapes t ∧
    k - shapeOffset shapes t ≠ k := by
  have htexc : (buildShapesVertices shapes k).texC = lastShapeTexC shapes k := by
    unfold buildShapesVertices
    rw [buildShapesAux_texC shapes 0 _ k]
    rfl
  have hwp : ∀ (arr : ℕ → Vertex) (j : ℕ) (v : Vertex) (idx : ℕ),
      Vertex.pos ((writeTexC arr j v) idx) = Vertex.pos (arr idx) :=
    fun arr j v idx => writeTexC_pos arr j idx v
  have hwn : ∀ (arr : ℕ → Vertex) (j : ℕ) (v : Vertex) (idx : ℕ),
      Vertex.normal ((writeTexC arr j v) idx) = Vertex.normal (arr idx) :=
    fun arr j v idx => writeTexC_normal arr j idx v
  have hpp : ∀ (arr : ℕ → Vertex) (j : ℕ) (v : Vertex) (idx : ℕ),
      Vertex.pos ((writePosNormal arr j v) idx) =
        if idx = j then Vertex.pos v else Vertex.pos (arr idx) :=
    fun arr j v idx => writePosNormal_pos arr j v idx
  have hpn : ∀ (arr : ℕ → Vertex) (j : ℕ) (v : Vertex) (idx : ℕ),
      Vertex.normal ((writePosNormal arr j v) idx) =
        if idx = j then Vertex.normal v else Vertex.normal (arr idx) :=
    fun arr j v idx => writePosNormal_normal arr j v idx
  have ht1 : 1 ≤ t := by
    by_contra hcon
    have ht0 : t = 0 := by omega
    subst ht0
    rw [shapeOffset_zero] at hhi
    have hg : shapes.get ⟨0, ht⟩ = shapes.getD 0 [] := by
      cases shapes with
      | nil => exact absurd ht (by simp)
      | cons a l => rfl
    rw [hg] at hhi
    omega
  have hoffpos : 0 < shapeOffset shapes t := by
    have := shapeOffset_head_le shapes t ht1 (by omega)
    omega
  have hgeom : ∀ (g : Vertex → Vec3),
      (∀ (arr : ℕ → Vertex) (j : ℕ) (v : Vertex) (idx : ℕ),
        g ((writeTexC arr j v) idx) = g (arr idx)) →
      (∀ (arr : ℕ → Vertex) (j : ℕ) (v : Vertex) (idx : ℕ),
        g ((writePosNormal arr j v) idx) = if idx = j then g v else g (arr idx)) →
      g (buildShapesVertices shapes k) =
        g ((shapes.get ⟨t, ht⟩).get ⟨k - shapeOffset shapes t, by omega⟩) := by
    intro g hw hp
    unfold buildShapesVertices
    rw [buildShapesAux_geom_owner g hw hp shapes 0 _ t ht k (by omega) (by omega)]
    have hA : k - (0 + shapeOffset shapes t) < (shapes.get ⟨t, ht⟩).length := by
      omega
    have hB : k - shapeOffset shapes t < (shapes.get ⟨t, ht⟩).length := by omega
    show g ((shapes.get ⟨t, ht⟩).get ⟨k - (0 + shapeOffset shapes t), hA⟩) =
      g ((shapes.get ⟨t, ht⟩).get ⟨k - shapeOffset shapes t, hB⟩)
    have hfin : (⟨k - (0 + shapeOffset shapes t), hA⟩ :
        Fin (shapes.get ⟨t, ht⟩).length) = ⟨k - shapeOffset shapes t, hB⟩ :=
      Fin.ext (by
        show k - (0 + shapeOffset shapes t) = k - shapeOffset shapes t
        omega)
    rw [hfin]
  refine ⟨htexc, ?_, hgeom Vertex.pos hwp hpp, hgeom Vertex.normal hwn hpn,
    hoffpos, by omega⟩
  intro hshort
  rw [htexc]
  exact lastShapeTexC_of_all_short shapes k hshort

/-- Two concrete shapes for the C10 correction: a one-vertex "box" followed
by a two-vertex shape with distinct texture coordinates. -/
def c10Shapes : List (List Vertex) :=
  [[{ pos := ⟨0, 0, 0⟩, normal := ⟨0, 0, 1⟩, texC := ⟨1, 1⟩ }],
   [{ pos := ⟨1, 0, 0⟩, normal := ⟨0, 0, 1⟩, texC := ⟨2, 2⟩ },
    { pos := ⟨2, 0, 0⟩, normal := ⟨0, 0, 1⟩, texC := ⟨3, 3⟩ }]]

/-- **C10, counterexample to the claim as stated.**  It is not true that
every concatenated vertex `k ≥ box.Vertices.size()` retains the
default-initialized TexC: with a one-vertex first shape and a two-vertex
second shape, slot `1` ends with the second shape's local vertex `1` TexC,
not the default. -/
theorem buildBoxGeometry_texC_default_refuted :
    ¬ (∀ k : ℕ, (c10Shapes.getD 0 []).length ≤ k →
        (buildShapesVertices c10Shapes k).texC = defaultVertex.texC) := by
  intro h
  have h1 := h 1 (by decide)
  exact absurd h1 (by decide)

/-- Witness for the amended C10 on `c10Shapes`, shape 1, slot 1. -/
theorem buildBoxGeometry_texC_never_own_witness :
    ((1 : ℕ) < c10Shapes.length ∧ 0 < (c10Shapes.getD 0 []).length ∧
      (c10Shapes.getD 0 []).length ≤ 1 ∧ shapeOffset c10Shapes 1 ≤ 1 ∧
      1 < shapeOffset c10Shapes 1 + (c10Shapes.get ⟨1, by decide⟩).length) ∧
    ((buildShapesVertices c10Shapes 1).texC = lastShapeTexC c10Shapes 1 ∧
    ((∀ sh ∈ c10Shapes, sh.length ≤ 1) →
      (buildShapesVertices c10Shapes 1).texC = defaultVertex.texC) ∧
    (buildShapesVertices c10Shapes 1).pos =
      ((c10Shapes.get ⟨1, by decide⟩).get
        ⟨1 - shapeOffset c10Shapes 1, by decide⟩).pos ∧
    (buildShapesVertices c10Shapes 1).normal =
      ((c10Shapes.get ⟨1, by decide⟩).get
        ⟨1 - shapeOffset c10Shapes 1, by decide⟩).normal ∧
    0 < shapeOffset c10Shapes 1 ∧
    1 - shapeOffset c10Shapes 1 ≠ 1) :=
  ⟨⟨by decide, by decide, by decide, by decide, by decide⟩,
    buildBoxGeometry_texC_never_own c10Shapes 1 (by decide) 1
      (by decide) (by decide) (by decide) (by decide)⟩
